import Mathlib

/-!
Shallow embedding of `xelis-vanity` (src/main.rs).

Strings are modelled as `List Char`.  External collaborators from the
`xelis_common` / `xelis_wallet` dependencies (keypair generation, address
encoding, mnemonic encoding, the bech32 charset and the network address
constants) are taken as parameters: the embedding quantifies over them,
matching the spec's black-box treatment of those capabilities.
-/

/-- A private/public keypair (`KeyPair` in the source).  The key material is
a black box to the search loop, so it is modelled as bare data. -/
structure KeyPair where
  priv : Nat
  pub : Nat
deriving Repr, DecidableEq

/-- Placement of the content in the address (`Placement`, src/main.rs). -/
inductive Placement where
  | Prefix
  | Suffix
  | Anywhere
deriving Repr, DecidableEq

/-- Rust `str::contains` (exact substring test), modelled on `List Char`:
the needle is a prefix of some tail of the haystack. -/
def str_contains (haystack needle : List Char) : Bool :=
  haystack.tails.any (fun t => needle.isPrefixOf t)

/-- The match test of `search_for` (src/main.rs lines 163-167):
`starts_with` / `ends_with` / `contains` chosen by the placement. -/
def placement_valid (placement : Placement) (address content : List Char) : Bool :=
  match placement with
  | .Prefix => content.isPrefixOf address
  | .Suffix => content.isSuffixOf address
  | .Anywhere => str_contains address content

/-- C2: the match test returns true iff the policy's defining relation holds
between the address and the content — starts-with for Prefix, ends-with for
Suffix, contains-as-substring for Anywhere — and the comparison is the exact
(case-sensitive) list relation, with no partial or fuzzy matching. -/
theorem match_policy_exact (p : Placement) (address content : List Char) :
    placement_valid p address content = true ↔
      (match p with
       | .Prefix => content <+: address
       | .Suffix => content <:+ address
       | .Anywhere => content <:+: address) := by
  cases p with
  | Prefix => simp [placement_valid]
  | Suffix => simp [placement_valid]
  | Anywhere =>
    simp only [placement_valid, str_contains, List.any_eq_true]
    constructor
    · rintro ⟨t, ht, hp⟩
      exact List.infix_iff_prefix_suffix.mpr
        ⟨t, List.isPrefixOf_iff_prefix.mp hp, (List.mem_tails _ _).mp ht⟩
    · intro h
      obtain ⟨t, hp, hs⟩ := List.infix_iff_prefix_suffix.mp h
      exact ⟨t, (List.mem_tails _ _).mpr hs, List.isPrefixOf_iff_prefix.mpr hp⟩

/-- Abstraction of the non-negative `f64` values arising in the rate
computation of `run_prompt`: an exact rational, positive infinity, or NaN.
Every float there is a cast of a machine natural or a quotient of such, so
negative values and signed zeroes never arise; rounding of finite quotients
is abstracted away (the spec only asks for equality up to floating-point
tolerance), while the IEEE-754 zero / infinity / NaN behaviour of division
is modelled exactly. -/
inductive FVal where
  | fin : ℚ → FVal
  | inf : FVal
  | nan : FVal
deriving Repr, DecidableEq

/-- IEEE-754 `f64` division, restricted to non-negative operands:
`0/0` and `∞/∞` give NaN, `x/0` with `x > 0` gives `∞`, `x/∞` gives `0`,
`∞/x` gives `∞`, and NaN propagates. -/
def FVal.div : FVal → FVal → FVal
  | .nan, _ => .nan
  | _, .nan => .nan
  | .fin a, .fin b => if b = 0 then (if a = 0 then .nan else .inf) else .fin (a / b)
  | .fin _, .inf => .fin 0
  | .inf, .fin _ => .inf
  | .inf, .inf => .nan

/-- The rate computation of the prompt closure in `run_prompt`
(src/main.rs line 185): `1000f64 / (elapsed_millis as f64 / counter as f64)`,
where `elapsed_millis` is the integral milliseconds since the last snapshot
and `counter` is the value swapped out of `RATE_COUNTER`. -/
def prompt_hashrate (elapsed_millis counter : Nat) : FVal :=
  FVal.div (.fin 1000) (FVal.div (.fin elapsed_millis) (.fin counter))

/-- The snapshot's atomic swap (`RATE_COUNTER.swap(0, Relaxed)`): the new
counter value together with the prior value read. -/
def rate_swap (counter : Nat) : Nat × Nat := (0, counter)

/-- State touched by the prompt snapshot: the shared attempt counter and the
`RATE_LAST_TIME` instant (milliseconds since an arbitrary epoch). -/
structure SnapState where
  counter : Nat
  last_time : Nat
deriving Repr, DecidableEq

/-- The prompt snapshot step (src/main.rs lines 181-188): under the
`RATE_LAST_TIME` lock, swap the counter to zero taking its prior value,
compute the elapsed milliseconds since the stored instant, store the current
instant, and compute the displayed rate. -/
def prompt_snapshot (s : SnapState) (now : Nat) : SnapState × FVal :=
  let swapped := rate_swap s.counter
  let elapsed := now - s.last_time
  (⟨swapped.1, now⟩, prompt_hashrate elapsed swapped.2)

/-- One shared-counter event: an `increment` by some worker
(`RATE_COUNTER.fetch_add(1, Relaxed)`) or a snapshot swap by the prompt
task (`RATE_COUNTER.swap(0, Relaxed)`). -/
inductive RateEvent where
  | inc
  | snap
deriving Repr, DecidableEq

/-- Run a sequence of counter events from a given counter value, returning
the final counter value and the list of values the snapshots read. -/
def run_rate_events : List RateEvent → Nat → Nat × List Nat
  | [], c => (c, [])
  | .inc :: es, c => run_rate_events es (c + 1)
  | .snap :: es, c =>
      ((run_rate_events es (rate_swap c).1).1,
        (rate_swap c).2 :: (run_rate_events es (rate_swap c).1).2)

/-- Number of `increment` events in a sequence of counter events. -/
def num_incs : List RateEvent → Nat
  | [] => 0
  | .inc :: es => num_incs es + 1
  | .snap :: es => num_incs es

/-- C3 counterexample: at a snapshot whose elapsed time rounds to zero
milliseconds, the computed rate handed to the display layer is not zero:
it is positive infinity when the counter read 1, and NaN when the counter
read 0. -/
theorem hashrate_edge_counterexample :
    prompt_hashrate 0 1 = FVal.inf ∧ prompt_hashrate 0 1 ≠ FVal.fin 0 ∧
      prompt_hashrate 0 0 = FVal.nan := by
  refine ⟨?_, ?_, ?_⟩ <;> simp [prompt_hashrate, FVal.div]

/-- C3 (amended): if the counter is zero while the elapsed milliseconds are
positive, the computed rate is exactly the finite value zero; but when the
elapsed time rounds to zero milliseconds the code propagates a non-finite
value to the display layer — positive infinity when the counter is positive,
NaN when the counter is also zero. -/
theorem hashrate_edge_cases (m k : Nat) :
    (k = 0 → 0 < m → prompt_hashrate m k = FVal.fin 0) ∧
    (0 < k → m = 0 → prompt_hashrate m k = FVal.inf) ∧
    (k = 0 → m = 0 → prompt_hashrate m k = FVal.nan) := by
  refine ⟨fun hk hm => ?_, fun hk hm => ?_, fun hk hm => ?_⟩
  · subst hk
    have hm' : (m : ℚ) ≠ 0 := Nat.cast_ne_zero.mpr (Nat.pos_iff_ne_zero.mp hm)
    simp [prompt_hashrate, FVal.div, hm']
  · subst hm
    have hk' : (k : ℚ) ≠ 0 := Nat.cast_ne_zero.mpr (Nat.pos_iff_ne_zero.mp hk)
    simp [prompt_hashrate, FVal.div, hk']
  · subst hk; subst hm
    simp [prompt_hashrate, FVal.div]

/-- Witness for `hashrate_edge_cases` at concrete snapshots. -/
theorem hashrate_edge_cases_witness :
    prompt_hashrate 5 0 = FVal.fin 0 ∧ prompt_hashrate 0 2 = FVal.inf ∧
      prompt_hashrate 0 0 = FVal.nan :=
  ⟨(hashrate_edge_cases 5 0).1 rfl (by norm_num),
   (hashrate_edge_cases 0 2).2.1 (by norm_num) rfl,
   (hashrate_edge_cases 0 0).2.2 rfl rfl⟩

/-- C4: the snapshot swaps the counter to zero taking the prior value K,
computes the rate from the elapsed time since the stored instant, and for
K > 0 and positive elapsed milliseconds the computed rate equals K divided
by the elapsed time in seconds; across any interleaving of increments and
snapshot swaps, the snapshot readings plus the residual counter account for
every increment exactly once. -/
theorem snapshot_rate_exact :
    (∀ (s : SnapState) (now : Nat),
      prompt_snapshot s now =
        (⟨0, now⟩, prompt_hashrate (now - s.last_time) s.counter)) ∧
    (∀ m k : Nat, 0 < m → 0 < k →
      prompt_hashrate m k = FVal.fin ((k : ℚ) / ((m : ℚ) / 1000))) ∧
    (∀ (es : List RateEvent) (c : Nat),
      (run_rate_events es c).2.sum + (run_rate_events es c).1 =
        c + num_incs es) := by
  refine ⟨fun s now => rfl, fun m k hm hk => ?_, fun es => ?_⟩
  · have hm' : (m : ℚ) ≠ 0 := Nat.cast_ne_zero.mpr (Nat.pos_iff_ne_zero.mp hm)
    have hk' : (k : ℚ) ≠ 0 := Nat.cast_ne_zero.mpr (Nat.pos_iff_ne_zero.mp hk)
    have hq : (m : ℚ) / (k : ℚ) ≠ 0 := div_ne_zero hm' hk'
    simp only [prompt_hashrate, FVal.div, if_neg hk', if_neg hq]
    have h : (1000 : ℚ) / ((m : ℚ) / (k : ℚ)) = (k : ℚ) / ((m : ℚ) / 1000) := by
      field_simp
      ring
    rw [h]
  · induction es with
    | nil => intro c; simp [run_rate_events, num_incs]
    | cons e es ih =>
      intro c
      cases e with
      | inc =>
        have h := ih (c + 1)
        simp only [run_rate_events, num_incs]
        omega
      | snap =>
        have h := ih 0
        simp only [run_rate_events, num_incs, rate_swap, List.sum_cons]
        omega

/-- Witness for `snapshot_rate_exact`: 500 attempts over 2000 ms is 250
attempts per second. -/
theorem snapshot_rate_exact_witness :
    prompt_hashrate 2000 500 = FVal.fin 250 := by
  have h := snapshot_rate_exact.2.1 2000 500 (by norm_num) (by norm_num)
  norm_num at h
  exact h

/-- A log line emitted by the worker's reporting path, carrying the data
the source interpolates into the three `info!` calls of `search_for`. -/
inductive LogLine where
  | found (thread : Nat) (address : List Char)
  | private_key (hex : List Char)
  | seed (words : List (List Char))
deriving Repr, DecidableEq

/-- The external collaborators a worker calls into: the address encoder
(`PublicKey::to_address` plus display), the hex rendering of the private
key, and the mnemonic encoder (`xelis_wallet::mnemonics::key_to_words`,
which fails for an unsupported language index, modelled as `none`). -/
structure WorkerExternals where
  to_address : Nat → Bool → List Char
  to_hex : Nat → List Char
  key_to_words : Nat → Nat → Option (List (List Char))

/-- The address a worker derives from a fresh keypair (src/main.rs lines
159-161): the public key encoded with the network flag hard-coded `true`. -/
def worker_address (ext : WorkerExternals) (kp : KeyPair) : List Char :=
  ext.to_address kp.pub true

/-- The reporting path of `search_for` (src/main.rs lines 169-173): log the
address and the private key in hex, then `unwrap()` the mnemonic encoding
of the private key and log the seed.  Result: the log lines actually
emitted, paired with `true` when the `unwrap()` panicked (mnemonic encoding
failed), which aborts the worker thread after the first two lines were
already logged. -/
def report_match (ext : WorkerExternals) (thread : Nat) (address : List Char)
    (kp : KeyPair) (language : Nat) : List LogLine × Bool :=
  match ext.key_to_words kp.priv language with
  | some ws =>
      ([.found thread address, .private_key (ext.to_hex kp.priv), .seed ws], false)
  | none => ([.found thread address, .private_key (ext.to_hex kp.priv)], true)

/-- One iteration of the `search_for` loop on one fresh keypair: derive the
address, test the placement, report on match, then increment the shared
counter.  Returns `none` when the iteration aborts the worker thread (the
mnemonic `unwrap()` panicking, before the counter increment is reached),
otherwise the new counter value and the log lines emitted. -/
def search_for_iter (ext : WorkerExternals) (content : List Char)
    (placement : Placement) (language : Nat) (thread : Nat)
    (kp : KeyPair) (counter : Nat) : Option (Nat × List LogLine) :=
  if placement_valid placement (worker_address ext kp) content then
    if (report_match ext thread (worker_address ext kp) kp language).2 then none
    else some (counter + 1, (report_match ext thread (worker_address ext kp) kp language).1)
  else some (counter + 1, [])

/-- Generalisation of `search_for_iter` in which the network flag passed to
the address encoder is a parameter instead of the literal `true`; used to
state that the worker fixes it to mainnet. -/
def search_for_iter_flagged (flag : Bool) (ext : WorkerExternals) (content : List Char)
    (placement : Placement) (language : Nat) (thread : Nat)
    (kp : KeyPair) (counter : Nat) : Option (Nat × List LogLine) :=
  if placement_valid placement (ext.to_address kp.pub flag) content then
    if (report_match ext thread (ext.to_address kp.pub flag) kp language).2 then none
    else some (counter + 1, (report_match ext thread (ext.to_address kp.pub flag) kp language).1)
  else some (counter + 1, [])

/-- Run one worker over a list of fresh keypairs (successive loop
iterations), threading the shared counter; `none` if some iteration aborts
the worker thread. -/
def run_worker_iters (ext : WorkerExternals) (content : List Char)
    (placement : Placement) (language : Nat) (thread : Nat) :
    List KeyPair → Nat → Option Nat
  | [], counter => some counter
  | kp :: kps, counter =>
    match search_for_iter ext content placement language thread kp counter with
    | some r => run_worker_iters ext content placement language thread kps r.1
    | none => none

/-- Concrete instantiation of the externals in which the mnemonic encoder
fails for every key and language index, as `key_to_words` does for an
out-of-range index. -/
def failing_externals : WorkerExternals where
  to_address := fun _ _ => ['0']
  to_hex := fun _ => ['0']
  key_to_words := fun _ _ => none

/-- Concrete instantiation of the externals in which the mnemonic encoder
succeeds for every key and language index. -/
def ok_externals : WorkerExternals where
  to_address := fun _ _ => ['x']
  to_hex := fun _ => ['a']
  key_to_words := fun _ _ => some [['w']]

/-- C1 counterexample: with a mnemonic encoder that fails (as for an
unsupported language index), a worker whose generated address matches does
not complete its reporting step: the iteration aborts the worker thread
(the `unwrap()` panics after the address and raw key were logged), instead
of reporting without words and carrying on. -/
theorem mnemonic_failure_aborts_worker :
    search_for_iter failing_externals ['0'] .Anywhere 999 0 ⟨0, 0⟩ 0 = none ∧
    report_match failing_externals 0 ['0'] ⟨0, 0⟩ 999 =
      ([.found 0 ['0'], .private_key ['0']], true) := by
  constructor <;> rfl

/-- C1 (amended): the worker's reporting step completes exactly when the
mnemonic encoder succeeds for the configured language index, in which case
the word sequence is attached; when the encoder fails, the address and the
raw private key are still logged but the subsequent `unwrap()` aborts the
worker thread and no word sequence is attached. -/
theorem report_match_spec (ext : WorkerExternals) (thread : Nat)
    (address : List Char) (kp : KeyPair) (language : Nat) :
    ((report_match ext thread address kp language).2 = false ↔
      (ext.key_to_words kp.priv language).isSome = true) ∧
    (∀ ws, ext.key_to_words kp.priv language = some ws →
      report_match ext thread address kp language =
        ([.found thread address, .private_key (ext.to_hex kp.priv), .seed ws], false)) ∧
    (ext.key_to_words kp.priv language = none →
      report_match ext thread address kp language =
        ([.found thread address, .private_key (ext.to_hex kp.priv)], true)) := by
  refine ⟨?_, fun ws hws => by simp [report_match, hws],
    fun hn => by simp [report_match, hn]⟩
  cases h : ext.key_to_words kp.priv language <;> simp [report_match, h]

/-- Witness for `report_match_spec` on concrete externals. -/
theorem report_match_spec_witness :
    report_match ok_externals 3 ['x'] ⟨7, 7⟩ 0 =
      ([.found 3 ['x'], .private_key ['a'], .seed [['w']]], false) ∧
    report_match failing_externals 3 ['0'] ⟨7, 7⟩ 0 =
      ([.found 3 ['0'], .private_key ['0']], true) :=
  ⟨(report_match_spec ok_externals 3 ['x'] ⟨7, 7⟩ 0).2.1 [['w']] rfl,
   (report_match_spec failing_externals 3 ['0'] ⟨7, 7⟩ 0).2.2 rfl⟩

/-- Helper: a completed `search_for` iteration yields counter + 1. -/
theorem search_for_iter_counter (ext : WorkerExternals) (content : List Char)
    (placement : Placement) (language thread : Nat) (kp : KeyPair)
    (counter : Nat) (r : Nat × List LogLine)
    (h : search_for_iter ext content placement language thread kp counter = some r) :
    r.1 = counter + 1 := by
  unfold search_for_iter at h
  split at h
  · split at h
    · exact Option.noConfusion h
    · cases h; rfl
  · cases h; rfl

/-- C8: every completed loop iteration increments the shared counter exactly
once, whatever the match outcome; after n completed iterations of one worker
the counter has grown by exactly n. -/
theorem counter_incremented_once_per_iter (ext : WorkerExternals)
    (content : List Char) (placement : Placement) (language thread : Nat) :
    (∀ kp counter r,
      search_for_iter ext content placement language thread kp counter = some r →
        r.1 = counter + 1) ∧
    (∀ kps counter c',
      run_worker_iters ext content placement language thread kps counter = some c' →
        c' = counter + kps.length) := by
  constructor
  · exact fun kp counter r h =>
      search_for_iter_counter ext content placement language thread kp counter r h
  · intro kps
    induction kps with
    | nil =>
      intro counter c' h
      simp only [run_worker_iters, Option.some.injEq] at h
      subst h
      simp
    | cons kp kps ih =>
      intro counter c' h
      unfold run_worker_iters at h
      cases heq : search_for_iter ext content placement language thread kp counter with
      | none => rw [heq] at h; exact Option.noConfusion h
      | some r =>
        rw [heq] at h
        have h1 := search_for_iter_counter ext content placement language thread kp counter r heq
        have h2 := ih r.1 c' h
        simp only [List.length_cons]
        omega

/-- Witness for `counter_incremented_once_per_iter`: two completed
iterations (no match on content `z`) grow the counter from 0 to 2. -/
theorem counter_incremented_once_per_iter_witness :
    (2 : Nat) = 0 + ([⟨0, 0⟩, ⟨1, 1⟩] : List KeyPair).length :=
  (counter_incremented_once_per_iter ok_externals ['z'] .Anywhere 0 0).2
    [⟨0, 0⟩, ⟨1, 1⟩] 0 2 (by decide)

/-- A pool of workers sharing only the attempt counter; `alive` records,
per 0-indexed thread identifier, whether that worker thread is still
running (a thread stops only by panicking; nothing else stops it). -/
structure PoolState where
  counter : Nat
  alive : List Bool
deriving Repr, DecidableEq

/-- One scheduled loop iteration of worker `i` on fresh keypair `kp`: if
the thread is still alive it runs one `search_for` iteration — possibly
panicking, which kills only that thread; a dead thread does nothing.
Workers share nothing but the counter: there is no cancellation signal. -/
def pool_step (ext : WorkerExternals) (content : List Char)
    (placement : Placement) (language : Nat) (s : PoolState) (i : Nat)
    (kp : KeyPair) : PoolState :=
  if s.alive.getD i false then
    match search_for_iter ext content placement language i kp s.counter with
    | some r => { counter := r.1, alive := s.alive }
    | none => { counter := s.counter, alive := s.alive.set i false }
  else s

/-- C9: a worker whose iteration completes — in particular one that just
reported a match — stays alive and loops again (there is no exit on the
match path other than the mnemonic panic, and no continue-after-match
switch); whenever the mnemonic encoder succeeds an iteration always
completes; and no iteration of worker `i`, matching, panicking or not,
ever changes the alive status of another worker `j`: no cross-worker
cancellation exists. -/
theorem match_never_stops_workers (ext : WorkerExternals) (content : List Char)
    (placement : Placement) (language : Nat) (s : PoolState) (i : Nat)
    (kp : KeyPair) :
    (∀ r, search_for_iter ext content placement language i kp s.counter = some r →
      (pool_step ext content placement language s i kp).alive = s.alive) ∧
    (∀ c, (ext.key_to_words kp.priv language).isSome = true →
      (search_for_iter ext content placement language i kp c).isSome = true) ∧
    (∀ j, j ≠ i →
      (pool_step ext content placement language s i kp).alive.getD j false =
        s.alive.getD j false) := by
  refine ⟨fun r h => ?_, fun c hk => ?_, fun j hj => ?_⟩
  · unfold pool_step
    split
    · rw [h]
    · rfl
  · unfold search_for_iter
    split
    · cases hw : ext.key_to_words kp.priv language with
      | none => rw [hw] at hk; exact Bool.noConfusion hk
      | some ws => simp [report_match, hw]
    · rfl
  · unfold pool_step
    split
    · split
      · rfl
      · simp only [List.getD_eq_getElem?_getD, List.getElem?_set_ne (Ne.symm hj)]
    · rfl

/-- Witness for `match_never_stops_workers`: worker 0 finds a match
(content `x`, address `x`), reports it, and both workers stay alive. -/
theorem match_never_stops_workers_witness :
    (pool_step ok_externals ['x'] .Anywhere 0 ⟨0, [true, true]⟩ 0 ⟨5, 5⟩).alive
        = [true, true] ∧
    (search_for_iter ok_externals ['x'] .Anywhere 0 1 ⟨5, 5⟩ 0).isSome = true ∧
    (pool_step ok_externals ['x'] .Anywhere 0 ⟨0, [true, true]⟩ 0 ⟨5, 5⟩).alive.getD 1 false
        = ([true, true] : List Bool).getD 1 false :=
  ⟨(match_never_stops_workers ok_externals ['x'] .Anywhere 0 ⟨0, [true, true]⟩ 0 ⟨5, 5⟩).1
      (1, [.found 0 ['x'], .private_key ['a'], .seed [['w']]]) (by decide),
   (match_never_stops_workers ok_externals ['x'] .Anywhere 0 ⟨0, [true, true]⟩ 1 ⟨5, 5⟩).2.1
      0 (by decide),
   (match_never_stops_workers ok_externals ['x'] .Anywhere 0 ⟨0, [true, true]⟩ 0 ⟨5, 5⟩).2.2
      1 (by decide)⟩

/-- C10: every worker iteration encodes the generated public key with the
network flag hard-coded to `true` (mainnet): for every configuration,
worker and keypair the iteration coincides with the flag-parameterised
variant instantiated at `true` — the flag is not part of the configuration
and is identical for all attempts of all workers. -/
theorem network_flag_fixed_mainnet (ext : WorkerExternals) (content : List Char)
    (placement : Placement) (language thread : Nat) (kp : KeyPair) (counter : Nat) :
    worker_address ext kp = ext.to_address kp.pub true ∧
    search_for_iter ext content placement language thread kp counter =
      search_for_iter_flagged true ext content placement language thread kp counter :=
  ⟨rfl, rfl⟩

/-- Startup validation failures (src/main.rs lines 106-135); each produces
a single logged error after which `main` returns before spawning workers. -/
inductive StartupError where
  | EmptyPattern
  | InvalidCharacter (c : Char)
  | InvalidThreadCount
deriving Repr, DecidableEq

/-- The first character of the content not present in the charset, scanning
left to right: the loop of src/main.rs lines 112-117 returns on the first
character `c` with `!CHARSET.chars().any(|v| v == c)`. -/
def first_invalid_char (charset content : List Char) : Option Char :=
  content.find? (fun c => !(charset.any (fun v => v == c)))

/-- Hardware-parallelism detection (src/main.rs lines 119-125):
`thread::available_parallelism()` is an external capability, so its outcome
is a parameter; on failure the code warns (second component `true`) and
falls back to 1. -/
def detect_threads (detected : Option Nat) : Nat × Bool :=
  match detected with
  | some v => (v, false)
  | none => (1, true)

/-- Thread-count resolution (src/main.rs lines 127-130): the configured
value when given, else the detected value. -/
def resolve_threads (num_threads : Option Nat) (detected : Option Nat) : Nat :=
  match num_threads with
  | some v => v
  | none => (detect_threads detected).1

/-- The content string handed to every worker (src/main.rs lines 140-143):
for Prefix placement the network address constant, the bech32 separator and
the user content concatenated in that order; otherwise the raw content. -/
def composed_content (PREFIX_ADDRESS : List Char) (SEPARATOR : Char)
    (placement : Placement) (content : List Char) : List Char :=
  match placement with
  | .Prefix => PREFIX_ADDRESS ++ [SEPARATOR] ++ content
  | _ => content

/-- The arguments each spawned worker receives (src/main.rs lines 145-149):
a clone of the composed content, the placement, the language index, and its
0-indexed thread identifier. -/
def spawn_args (composed : List Char) (placement : Placement) (language : Nat)
    (threads : Nat) : List (List Char × Placement × Nat × Nat) :=
  (List.range threads).map (fun i => (composed, placement, language, i))

/-- The startup path of `main` after prompt initialisation (src/main.rs
lines 106-149): validate the content against the charset, resolve the
thread count, validate it, and only then compose the content and spawn the
workers.  Returns the spawned workers' arguments, or the single startup
error with which the process exits. -/
def main_spawn (charset PREFIX_ADDRESS : List Char) (SEPARATOR : Char)
    (content : List Char) (num_threads detected : Option Nat)
    (placement : Placement) (language : Nat) :
    Except StartupError (List (List Char × Placement × Nat × Nat)) :=
  if content.isEmpty then .error .EmptyPattern
  else
    match first_invalid_char charset content with
    | some c => .error (.InvalidCharacter c)
    | none =>
      if resolve_threads num_threads detected < 1 then .error .InvalidThreadCount
      else
        .ok (spawn_args (composed_content PREFIX_ADDRESS SEPARATOR placement content)
          placement language (resolve_threads num_threads detected))

/-- Helper: `first_invalid_char` returns `none` exactly when every content
character belongs to the charset. -/
theorem first_invalid_char_eq_none (charset content : List Char) :
    first_invalid_char charset content = none ↔ ∀ c ∈ content, c ∈ charset := by
  simp [first_invalid_char, List.find?_eq_none, List.any_eq_true]

/-- Helper: a character reported by `first_invalid_char` occurs in the
content and lies outside the charset. -/
theorem first_invalid_char_eq_some (charset content : List Char) (c : Char)
    (h : first_invalid_char charset content = some c) :
    c ∈ content ∧ c ∉ charset := by
  refine ⟨List.mem_of_find?_eq_some h, ?_⟩
  have hp := List.find?_some h
  simp [List.any_eq_true] at hp
  intro hc
  exact hp c hc rfl

/-- C5: startup rejects — with the corresponding single error and workers
never spawned — empty content, content containing a character outside the
address alphabet (the error names the first offending character), and a
resolved thread count below 1; workers are spawned if and only if all
three checks pass. -/
theorem startup_validation (charset PA : List Char) (SEP : Char)
    (content : List Char) (num_threads detected : Option Nat)
    (placement : Placement) (language : Nat) :
    ((∃ ws, main_spawn charset PA SEP content num_threads detected placement language
        = .ok ws) ↔
      (content ≠ [] ∧ (∀ c ∈ content, c ∈ charset) ∧
        1 ≤ resolve_threads num_threads detected)) ∧
    (content = [] →
      main_spawn charset PA SEP content num_threads detected placement language
        = .error .EmptyPattern) ∧
    (∀ c, main_spawn charset PA SEP content num_threads detected placement language
        = .error (.InvalidCharacter c) → c ∈ content ∧ c ∉ charset) := by
  refine ⟨⟨?_, ?_⟩, fun hc => by simp [main_spawn, hc], fun c hc => ?_⟩
  · rintro ⟨ws, hws⟩
    by_cases he : content.isEmpty
    · simp [main_spawn, he] at hws
    · cases hf : first_invalid_char charset content with
      | some c => simp [main_spawn, he, hf] at hws
      | none =>
        by_cases ht : resolve_threads num_threads detected < 1
        · simp [main_spawn, he, hf, ht] at hws
        · exact ⟨by simpa [List.isEmpty_iff] using he,
            (first_invalid_char_eq_none charset content).mp hf, by omega⟩
  · rintro ⟨h1, h2, h3⟩
    have he : content.isEmpty = false := by simpa [List.isEmpty_iff] using h1
    have hf : first_invalid_char charset content = none :=
      (first_invalid_char_eq_none charset content).mpr h2
    exact ⟨spawn_args (composed_content PA SEP placement content) placement language
        (resolve_threads num_threads detected),
      by simp [main_spawn, he, hf, Nat.not_lt.mpr h3]⟩
  · by_cases he : content.isEmpty
    · simp [main_spawn, he] at hc
    · cases hf : first_invalid_char charset content with
      | none =>
        by_cases ht : resolve_threads num_threads detected < 1 <;>
          simp [main_spawn, he, hf, ht] at hc
      | some c' =>
        simp [main_spawn, he, hf] at hc
        subst hc
        exact first_invalid_char_eq_some charset content c' hf

/-- Witness for `startup_validation` on concrete configurations. -/
theorem startup_validation_witness :
    (∃ ws, main_spawn ['a', 'b'] ['x'] ':' ['b', 'a'] (some 2) none .Anywhere 0
        = .ok ws) ∧
    main_spawn ['a', 'b'] ['x'] ':' [] (some 2) none .Anywhere 0
        = .error .EmptyPattern ∧
    ('q' ∈ ['q', 'a'] ∧ 'q' ∉ (['a', 'b'] : List Char)) :=
  ⟨(startup_validation ['a', 'b'] ['x'] ':' ['b', 'a'] (some 2) none .Anywhere 0).1.mpr
      ⟨by decide, by decide, by decide⟩,
   (startup_validation ['a', 'b'] ['x'] ':' [] (some 2) none .Anywhere 0).2.1 rfl,
   (startup_validation ['a', 'b'] ['x'] ':' ['q', 'a'] (some 2) none .Anywhere 0).2.2 'q'
      rfl⟩

/-- C6: the string each worker tests against is, for Prefix placement, the
network address constant then the separator then the user content
concatenated in that order, and for Suffix and Anywhere placements the raw
user content unchanged; every spawned worker of one search receives this
same composed string. -/
theorem worker_content_composition (PA : List Char) (SEP : Char)
    (content : List Char) (placement : Placement) (language threads : Nat) :
    composed_content PA SEP .Prefix content = PA ++ [SEP] ++ content ∧
    composed_content PA SEP .Suffix content = content ∧
    composed_content PA SEP .Anywhere content = content ∧
    (∀ a ∈ spawn_args (composed_content PA SEP placement content)
        placement language threads,
      a.1 = composed_content PA SEP placement content) := by
  refine ⟨rfl, rfl, rfl, fun a ha => ?_⟩
  simp only [spawn_args, List.mem_map] at ha
  obtain ⟨i, _, rfl⟩ := ha
  rfl

/-- Witness for `worker_content_composition` on a spawned worker. -/
theorem worker_content_composition_witness :
    ((['p'], Placement.Suffix, 0, 1) : List Char × Placement × Nat × Nat).1 =
      composed_content ['x'] ':' .Suffix ['p'] :=
  (worker_content_composition ['x'] ':' ['p'] .Suffix 0 2).2.2.2
    (['p'], .Suffix, 0, 1) (by decide)

/-- C7: an unspecified thread count resolves to the detected hardware
parallelism; failed detection makes it fall back to exactly 1 with a
warning; a specified count is used as given; and the resolved count spawns
exactly that many workers carrying distinct 0-indexed thread identifiers. -/
theorem thread_count_resolution (v d threads : Nat) (detected : Option Nat)
    (composed : List Char) (placement : Placement) (language : Nat) :
    (resolve_threads none (some d) = d ∧ (detect_threads (some d)).2 = false) ∧
    (resolve_threads none none = 1 ∧ (detect_threads none).2 = true) ∧
    resolve_threads (some v) detected = v ∧
    (spawn_args composed placement language threads).length = threads ∧
    (spawn_args composed placement language threads).map (fun a => a.2.2.2) =
      List.range threads ∧
    ((spawn_args composed placement language threads).map (fun a => a.2.2.2)).Nodup := by
  refine ⟨⟨rfl, rfl⟩, ⟨rfl, rfl⟩, rfl, ?_, ?_, ?_⟩
  · simp [spawn_args]
  · simp only [spawn_args, List.map_map]
    show List.map (fun i => i) (List.range threads) = List.range threads
    simp
  · simp only [spawn_args, List.map_map]
    show (List.map (fun i => i) (List.range threads)).Nodup
    simpa using List.nodup_range threads

/-- C9 counterexample: the match path does have an exit — with a failing
mnemonic encoder, a matching iteration kills the matching worker itself
(here thread 1), so a worker does not keep scanning after every match,
although the other worker is still unaffected. -/
theorem match_path_exit_counterexample :
    (pool_step failing_externals ['0'] .Anywhere 7 ⟨3, [true, true]⟩ 1 ⟨4, 4⟩).alive
      = [true, false] := rfl
